import Mathlib

/-!
Verification of the `download` command-line utility (src/main.rs) against its
natural-language specification.

The development shallowly embeds the program:

* `sha1Bytes` / `sha256Bytes` / `hexEncode` model the `sha1`, `sha2` and
  `data_encoding::HEXLOWER` crates as pure functions on byte lists
  (bytes are `Nat` values < 256); they are validated below against the
  standard test vectors quoted in the specification.
* `stepEvent` / `runLoop` / `download_with_progress` embed the
  read/write/hash/progress loop of `fn download_with_progress`
  (src/main.rs lines 71-108).  The underlying reader is modelled as a
  list of `ReadEvent`s: each `read` call either returns a chunk of bytes
  (`Ok(len)`, with `chunk []` playing the role of `Ok(0)` = end of
  stream), fails transiently (`ErrorKind::Interrupted`), or fails
  fatally.  An exhausted event list means the reader returns `Ok(0)`
  from then on.  The writer is modelled by the byte list it has accepted
  plus an optional failure point `failAfter`: `write_all` fails on the
  call whose index equals `failAfter`.
* `http_download`, `runMain`, `output_path`, `get_filename` embed the
  request setup and the control flow of `fn main` (exit codes, sink
  creation, destination-path selection), with the external collaborators
  (reqwest client build and send, `File::create`, flush, `io::copy`)
  abstracted as boolean outcomes.
-/

namespace Download

/-! ### 32-bit word arithmetic on `Nat` -/

def w32 : Nat := 4294967296

def add32 (a b : Nat) : Nat := (a + b) % w32

def rotl32 (x n : Nat) : Nat := (x * 2 ^ n + x / 2 ^ (32 - n)) % w32

def rotr32 (x n : Nat) : Nat := (x / 2 ^ n + x * 2 ^ (32 - n)) % w32

/-- Split a byte list into consecutive chunks of `n` bytes (last chunk may be
shorter).  Structural recursion so that the kernel can evaluate it. -/
def chunkAux (n : Nat) (acc : List Nat) : List Nat → List (List Nat)
  | [] => if acc.isEmpty then [] else [acc]
  | x :: xs =>
    if acc.length + 1 = n then (acc ++ [x]) :: chunkAux n [] xs
    else chunkAux n (acc ++ [x]) xs

def chunkList (n : Nat) (l : List Nat) : List (List Nat) := chunkAux n [] l

/-- Merkle-Damgard padding shared by SHA-1 and SHA-256: append `0x80`, zero
bytes up to 56 mod 64, then the bit length as a 64-bit big-endian integer. -/
def padBytes (msg : List Nat) : List Nat :=
  let len := msg.length
  let zeros := (119 - len % 64) % 64
  msg ++ 128 :: List.replicate zeros 0 ++
    (List.range 8).map (fun i => ((8 * len) / 2 ^ (8 * (7 - i))) % 256)

def beWord (bs : List Nat) : Nat := bs.foldl (fun a b => a * 256 + b) 0

def wordToBytes (x : Nat) : List Nat :=
  [(x / 2 ^ 24) % 256, (x / 2 ^ 16) % 256, (x / 2 ^ 8) % 256, x % 256]

/-! ### SHA-256 (FIPS 180-4), modelling the `sha2` crate -/

def sha256K : List Nat :=
  [1116352408, 1899447441, 3049323471, 3921009573, 961987163, 1508970993,
   2453635748, 2870763221, 3624381080, 310598401, 607225278, 1426881987,
   1925078388, 2162078206, 2614888103, 3248222580, 3835390401, 4022224774,
   264347078, 604807628, 770255983, 1249150122, 1555081692, 1996064986,
   2554220882, 2821834349, 2952996808, 3210313671, 3336571891, 3584528711,
   113926993, 338241895, 666307205, 773529912, 1294757372, 1396182291,
   1695183700, 1986661051, 2177026350, 2456956037, 2730485921, 2820302411,
   3259730800, 3345764771, 3516065817, 3600352804, 4094571909, 275423344,
   430227734, 506948616, 659060556, 883997877, 958139571, 1322822218,
   1537002063, 1747873779, 1955562222, 2024104815, 2227730452, 2361852424,
   2428436474, 2756734187, 3204031479, 3329325298]

def sha256Init : List Nat :=
  [1779033703, 3144134277, 1013904242, 2773480762,
   1359893119, 2600822924, 528734635, 1541459225]

def sha256SmallSig0 (x : Nat) : Nat := (rotr32 x 7) ^^^ (rotr32 x 18) ^^^ (x / 2 ^ 3)

def sha256SmallSig1 (x : Nat) : Nat := (rotr32 x 17) ^^^ (rotr32 x 19) ^^^ (x / 2 ^ 10)

def sha256BigSig0 (x : Nat) : Nat := (rotr32 x 2) ^^^ (rotr32 x 13) ^^^ (rotr32 x 22)

def sha256BigSig1 (x : Nat) : Nat := (rotr32 x 6) ^^^ (rotr32 x 11) ^^^ (rotr32 x 25)

def sha256Extend (ws : List Nat) : List Nat :=
  (List.range 48).foldl (fun w _ =>
    let t := w.length
    w ++ [add32 (add32 (sha256SmallSig1 (w.getD (t - 2) 0)) (w.getD (t - 7) 0))
               (add32 (sha256SmallSig0 (w.getD (t - 15) 0)) (w.getD (t - 16) 0))]) ws

def sha256Round (st : List Nat) (kw : Nat × Nat) : List Nat :=
  match st with
  | [a, b, c, d, e, f, g, h] =>
    let s1 := sha256BigSig1 e
    let ch := (e &&& f) ^^^ ((4294967295 - e) &&& g)
    let t1 := add32 (add32 (add32 h s1) (add32 ch kw.1)) kw.2
    let s0 := sha256BigSig0 a
    let mj := ((a &&& b) ^^^ (a &&& c)) ^^^ (b &&& c)
    let t2 := add32 s0 mj
    [add32 t1 t2, a, b, c, add32 d t1, e, f, g]
  | _ => st

def sha256Block (h : List Nat) (block : List Nat) : List Nat :=
  let ws := sha256Extend ((chunkList 4 block).map beWord)
  let fin := (sha256K.zip ws).foldl sha256Round h
  (h.zip fin).map (fun p => add32 p.1 p.2)

/-- SHA-256 digest (32 bytes) of a byte list, computed in one pass. -/
def sha256Bytes (msg : List Nat) : List Nat :=
  (((chunkList 64 (padBytes msg)).foldl sha256Block sha256Init).map wordToBytes).flatten

/-! ### SHA-1 (FIPS 180-4), modelling the `sha1` crate -/

def sha1Init : List Nat := [1732584193, 4023233417, 2562383102, 271733878, 3285377520]

def sha1Extend (ws : List Nat) : List Nat :=
  (List.range 64).foldl (fun w _ =>
    let t := w.length
    w ++ [rotl32 (((w.getD (t - 3) 0) ^^^ (w.getD (t - 8) 0)) ^^^
                  ((w.getD (t - 14) 0) ^^^ (w.getD (t - 16) 0))) 1]) ws

def sha1Round (st : List Nat) (iw : Nat × Nat) : List Nat :=
  match st with
  | [a, b, c, d, e] =>
    let i := iw.1
    let f := if i < 20 then (b &&& c) ||| ((4294967295 - b) &&& d)
             else if i < 40 then (b ^^^ c) ^^^ d
             else if i < 60 then ((b &&& c) ||| (b &&& d)) ||| (c &&& d)
             else (b ^^^ c) ^^^ d
    let k := if i < 20 then 1518500249
             else if i < 40 then 1859775393
             else if i < 60 then 2400959708
             else 3395469782
    let tmp := add32 (add32 (rotl32 a 5) f) (add32 (add32 e k) iw.2)
    [tmp, a, rotl32 b 30, c, d]
  | _ => st

def sha1Block (h : List Nat) (block : List Nat) : List Nat :=
  let ws := sha1Extend ((chunkList 4 block).map beWord)
  let fin := ((List.range 80).zip ws).foldl sha1Round h
  (h.zip fin).map (fun p => add32 p.1 p.2)

/-- SHA-1 digest (20 bytes) of a byte list, computed in one pass. -/
def sha1Bytes (msg : List Nat) : List Nat :=
  (((chunkList 64 (padBytes msg)).foldl sha1Block sha1Init).map wordToBytes).flatten

/-- Lowercase hex encoding of a byte list, modelling `HEXLOWER.encode`. -/
def hexDigitChar (n : Nat) : Char := if n < 10 then Char.ofNat (48 + n) else Char.ofNat (87 + n)

def hexEncode (bs : List Nat) : String :=
  String.mk (bs.foldr (fun b acc => hexDigitChar (b / 16) :: hexDigitChar (b % 16) :: acc) [])

/-! ### The streaming transfer loop (`fn download_with_progress`) -/

/-- Result record of `download_with_progress` (struct `DownloadResult`,
src/main.rs lines 32-36).  `bytes_written` is the value of the `u64`
counter `written`. -/
structure DownloadResult where
  bytes_written : Nat
  sha1 : String
  sha256 : String
  deriving DecidableEq

/-- One `reader.read(&mut buf)` outcome.  `chunk data` is `Ok(data.length)`
with the bytes `data` placed in the buffer (`chunk []` is `Ok(0)`, end of
stream); `interrupted` is `Err(e)` with `e.kind() == ErrorKind::Interrupted`;
`fatal code` is any other `Err`. -/
inductive ReadEvent where
  | chunk (data : List Nat)
  | interrupted
  | fatal (code : Nat)
  deriving DecidableEq

def ReadEvent.isInterrupted : ReadEvent → Bool
  | .interrupted => true
  | _ => false

/-- Errors the loop can return: a propagated fatal read error, or a failure
of `writer.write_all`. -/
inductive IoError where
  | readErr (code : Nat)
  | writeErr
  deriving DecidableEq

/-- 2^64, the modulus of the `u64` counters `written` and the progress bar. -/
def u64 : Nat := 18446744073709551616

/-- State of one loop iteration of `download_with_progress`: the `written`
counter, the progress-bar count, the bytes delivered to the writer so far,
the number of `write_all` calls issued, and the bytes fed to each hasher. -/
structure LoopState where
  written : Nat
  progress : Nat
  sink : List Nat
  writeCalls : Nat
  sha1fed : List Nat
  sha256fed : List Nat
  deriving DecidableEq

def initState : LoopState := ⟨0, 0, [], 0, [], []⟩

/-- The `Ok(0)` arm of the loop: build the `DownloadResult` from the current
counter and the finalized hashers (src/main.rs lines 86-92). -/
def finalizeResult (s : LoopState) : DownloadResult :=
  ⟨s.written, hexEncode (sha1Bytes s.sha1fed), hexEncode (sha256Bytes s.sha256fed)⟩

inductive StepResult where
  | done (r : DownloadResult)
  | cont (s : LoopState)
  | failed (e : IoError) (s : LoopState)
  deriving DecidableEq

/-- Effect of one successful iteration on a chunk `data`: `write_all`
delivers `data` to the sink, both hashers are updated with `data`, the
progress bar advances by `data.length`, and `written += len as u64`. -/
def advanceState (s : LoopState) (data : List Nat) : LoopState :=
  ⟨(s.written + data.length) % u64, (s.progress + data.length) % u64,
   s.sink ++ data, s.writeCalls + 1, s.sha1fed ++ data, s.sha256fed ++ data⟩

/-- One iteration of the loop body (src/main.rs lines 84-107) on one read
outcome.  `failAfter = some k` makes the writer's `write_all` fail on its
k-th call (0-based); `none` is a writer that never fails. -/
def stepEvent (failAfter : Option Nat) (s : LoopState) : ReadEvent → StepResult
  | .interrupted => .cont s
  | .fatal code => .failed (.readErr code) s
  | .chunk data =>
    if data.isEmpty then .done (finalizeResult s)
    else if failAfter = some s.writeCalls then
      .failed .writeErr { s with writeCalls := s.writeCalls + 1 }
    else .cont (advanceState s data)

/-- The loop of `download_with_progress` over a list of read outcomes.  An
exhausted list behaves as a reader that returns `Ok(0)`. -/
def runLoop (failAfter : Option Nat) (s : LoopState) : List ReadEvent → Except IoError DownloadResult
  | [] => .ok (finalizeResult s)
  | ev :: rest =>
    match stepEvent failAfter s ev with
    | .done r => .ok r
    | .failed e _ => .error e
    | .cont s2 => runLoop failAfter s2 rest

/-- Embedding of `fn download_with_progress` (src/main.rs lines 71-108). -/
def download_with_progress (failAfter : Option Nat) (events : List ReadEvent) :
    Except IoError DownloadResult :=
  runLoop failAfter initState events

/-- The loop states at every loop-iteration boundary: the initial state and
the state after each completed iteration, up to loop exit. -/
def runStates (failAfter : Option Nat) (s : LoopState) : List ReadEvent → List LoopState
  | [] => [s]
  | ev :: rest =>
    match stepEvent failAfter s ev with
    | .cont s2 => s :: runStates failAfter s2 rest
    | _ => [s]

/-- Total number of bytes offered by the chunk events of a read-event list. -/
def eventsLen : List ReadEvent → Nat
  | [] => 0
  | .chunk data :: rest => data.length + eventsLen rest
  | _ :: rest => eventsLen rest

/-! ### Request setup and `fn main` control flow -/

def EXIT_URL_FAILURE : Nat := 1

def EXIT_OUTPUT_FAILURE : Nat := 2

/-- Validity of one byte of an HTTP header value, as checked by
`HeaderValue::from_str` in the `http` crate: visible ASCII and obs-text
bytes, plus horizontal tab. -/
def validHeaderByte (b : Nat) : Bool := b == 9 || (decide (32 ≤ b) && b != 127)

/-- Whether a user-agent string (as its byte list) is a legal HTTP header
value. -/
def validHeaderValue (ua : List Nat) : Bool := ua.all validHeaderByte

/-- Outcome of `fn http_download` (src/main.rs lines 52-69): the client
build or the send can fail with a reqwest error (`setupErr`), and an
illegal user-agent byte makes the `.unwrap()` on
`HeaderValue::from_str(user_agent)` (line 62) panic. -/
inductive HttpOutcome where
  | panicked
  | setupErr
  | ok
  deriving DecidableEq

/-- Embedding of `fn http_download`: `clientBuildOk` abstracts
`Client::builder()...build()?`, `sendOk` abstracts `client.get(url)...send()?`. -/
def http_download (clientBuildOk : Bool) (ua : List Nat) (sendOk : Bool) : HttpOutcome :=
  if !clientBuildOk then .setupErr
  else if !(validHeaderValue ua) then .panicked
  else if sendOk then .ok else .setupErr

/-- How the process ends: a normal `process::exit` (or fall-through, code 0)
or a Rust panic (the `.unwrap()` on the user-agent header). -/
inductive Termination where
  | exited (code : Nat)
  | panicked
  deriving DecidableEq

/-- Observable outcome of one `fn main` run: how the process terminated and
whether `File::create` was ever called on the destination path. -/
structure MainRun where
  term : Termination
  fileCreateAttempted : Bool
  deriving DecidableEq

/-- Embedding of `url.rsplit('/').next()`: split the path on `'/'`, yield
the segments from the end; `next()` takes the first of them.  `splitChar`
computes the segments in order, `rsplitSegments` reverses them. -/
def splitChar (sep : Char) : List Char → List (List Char)
  | [] => [[]]
  | c :: cs =>
    match splitChar sep cs with
    | [] => [[]]
    | seg :: rest => if c = sep then [] :: seg :: rest else (c :: seg) :: rest

def rsplitSegments (sep : Char) (cs : List Char) : List (List Char) :=
  (splitChar sep cs).reverse

/-- Embedding of `fn get_filename` (src/main.rs lines 38-40). -/
def get_filename (url : String) : Option String :=
  (rsplitSegments '/' url.data).head?.map (fun cs => String.mk cs)

/-- Modelled from the spec: the destination path is "the text after the last
`'/'` of the URL's path component".  Stated in the spec's words, to be
compared with `get_filename`. -/
def textAfterLastSlash (s : String) : String :=
  String.mk ((s.data.reverse.takeWhile (fun c => c != '/')).reverse)

/-- Destination-path selection in `fn main` (src/main.rs lines 161-169):
`--remote-name` uses `get_filename(uri.path())`, otherwise the `--output`
argument (if any); `none` means standard output. -/
def output_path (remoteNameSet : Bool) (outputArg : Option String) (uriPath : String) :
    Option String :=
  if remoteNameSet then get_filename uriPath else outputArg

/-- Embedding of the control flow of `fn main` after argument parsing
(src/main.rs lines 171-236).  External effects are abstracted:
`clientBuildOk`/`sendOk` feed `http_download`, `createOk` abstracts
`File::create`, `failAfter`/`events` drive the transfer loop, `flushOk`
abstracts `writer.flush()`, and `stdoutCopyOk` abstracts the
`io::copy` of the stdout branch. -/
def runMain (clientBuildOk : Bool) (ua : List Nat) (sendOk : Bool)
    (outputPath : Option String) (createOk : Bool) (failAfter : Option Nat)
    (events : List ReadEvent) (flushOk : Bool) (stdoutCopyOk : Bool) : MainRun :=
  match http_download clientBuildOk ua sendOk with
  | .panicked => ⟨.panicked, false⟩
  | .setupErr => ⟨.exited EXIT_URL_FAILURE, false⟩
  | .ok =>
    match outputPath with
    | some _ =>
      if createOk then
        match download_with_progress failAfter events with
        | .error _ => ⟨.exited EXIT_OUTPUT_FAILURE, true⟩
        | .ok _ => if flushOk then ⟨.exited 0, true⟩ else ⟨.exited EXIT_OUTPUT_FAILURE, true⟩
      else ⟨.exited EXIT_OUTPUT_FAILURE, true⟩
    | none => if stdoutCopyOk then ⟨.exited 0, false⟩ else ⟨.exited EXIT_OUTPUT_FAILURE, false⟩

/-- Decidable equality for `Except`, needed to evaluate loop results on
concrete inputs. -/
instance instDecEqExcept {e a : Type} [DecidableEq e] [DecidableEq a] :
    DecidableEq (Except e a) := fun x y =>
  match x, y with
  | .ok u, .ok v => decidable_of_iff (u = v) ⟨fun h => h ▸ rfl, Except.ok.inj⟩
  | .error u, .error v => decidable_of_iff (u = v) ⟨fun h => h ▸ rfl, Except.error.inj⟩
  | .ok _, .error _ => isFalse (fun h => Except.noConfusion h)
  | .error _, .ok _ => isFalse (fun h => Except.noConfusion h)

/-- Invariant tying the three consumers of the buffer together: the bytes
delivered to the sink are exactly the bytes fed to each hasher, and the
`u64` counter equals the sink byte count modulo 2^64. -/
def LoopInv (s : LoopState) : Prop :=
  s.sink = s.sha1fed ∧ s.sink = s.sha256fed ∧ s.written = s.sink.length % u64

/-! ## Theorems -/

set_option maxRecDepth 400000 in
/-- Sanity check: the SHA-1 model reproduces the spec's test vector for
the input `"hello"`. -/
theorem sha1_hello_vector :
    hexEncode (sha1Bytes [104, 101, 108, 108, 111]) =
      "aaf4c61ddcc5e8a2dabede0f3b482cd9aea9434d" := by decide

set_option maxRecDepth 400000 in
/-- Sanity check: the SHA-256 model reproduces the spec's test vector for
the input `"hello"`. -/
theorem sha256_hello_vector :
    hexEncode (sha256Bytes [104, 101, 108, 108, 111]) =
      "2cf24dba5fb0a30e26e83b2ac5b9e29e1b161e5c1fa7425e73043362938b9824" := by decide

/-- Running the loop over nonempty chunks with a writer that never fails
succeeds, adds the total chunk length to the `written` counter (mod 2^64),
and hashes the prior hasher contents followed by the concatenated chunks. -/
theorem runLoop_chunks (chunks : List (List Nat)) :
    ∀ s : LoopState, (∀ c ∈ chunks, c ≠ []) → s.written < u64 →
    runLoop none s (chunks.map ReadEvent.chunk) =
      Except.ok ⟨(s.written + (chunks.map List.length).sum) % u64,
        hexEncode (sha1Bytes (s.sha1fed ++ chunks.flatten)),
        hexEncode (sha256Bytes (s.sha256fed ++ chunks.flatten))⟩ := by
  induction chunks with
  | nil =>
    intro s _ hw
    simp [runLoop, finalizeResult, Nat.mod_eq_of_lt hw]
  | cons c cs ih =>
    intro s h hw
    obtain ⟨a, as, rfl⟩ := List.exists_cons_of_ne_nil (h c (List.mem_cons_self c cs))
    rw [List.map_cons, runLoop]
    show runLoop none (advanceState s (a :: as)) (cs.map ReadEvent.chunk) = _
    rw [ih _ (fun d hd => h d (List.mem_cons_of_mem _ hd)) (Nat.mod_lt _ (by norm_num [advanceState, u64]))]
    simp [advanceState, Nat.mod_add_mod, Nat.add_assoc, List.append_assoc]

/-- C1: for every input byte stream of total length L, however the reader
splits it into chunks (each read returning between 1 and 8192 bytes until
a final zero-length read), `download_with_progress` returns a
`DownloadResult` whose `bytes_written` field equals L (stated for L within
the range of the `u64` counter). -/
theorem claim_C1 (chunks : List (List Nat))
    (hck : ∀ c ∈ chunks, 1 ≤ c.length ∧ c.length ≤ 8192)
    (hL : (chunks.map List.length).sum < u64) :
    ∃ r : DownloadResult,
      download_with_progress none (chunks.map ReadEvent.chunk) = Except.ok r ∧
      r.bytes_written = (chunks.map List.length).sum := by
  refine ⟨_, runLoop_chunks chunks initState
    (fun c hc => List.length_pos.mp (by have := (hck c hc).1; omega))
    (by norm_num [initState, u64]), ?_⟩
  simpa [initState] using Nat.mod_eq_of_lt hL

/-- Witness for C1 at a concrete chunked input of total length 3. -/
theorem claim_C1_witness :
    (∀ c ∈ [[1, 2], [3]], 1 ≤ List.length c ∧ List.length c ≤ 8192) ∧
    (List.map List.length [[1, 2], [3]]).sum < u64 ∧
    ∃ r : DownloadResult,
      download_with_progress none (List.map ReadEvent.chunk [[1, 2], [3]]) = Except.ok r ∧
      r.bytes_written = (List.map List.length [[1, 2], [3]]).sum :=
  ⟨by decide, by decide, claim_C1 [[1, 2], [3]] (by decide) (by decide)⟩

set_option maxRecDepth 400000 in
/-- C5: a zero-length body yields `bytes_written = 0` and the digests of
the empty string, and an already-exhausted reader gives the identical
result. -/
theorem claim_C5 :
    download_with_progress none [] =
      Except.ok ⟨0, "da39a3ee5e6b4b0d3255bfef95601890afd80709",
        "e3b0c44298fc1c149afbf4c8996fb92427ae41e4649b934ca495991b7852b855"⟩ ∧
    download_with_progress none [ReadEvent.chunk []] = download_with_progress none [] :=
  ⟨by decide, rfl⟩

/-! ### Equations for one loop iteration -/

theorem runStates_interrupted (failAfter : Option Nat) (s : LoopState) (rest : List ReadEvent) :
    runStates failAfter s (ReadEvent.interrupted :: rest) = s :: runStates failAfter s rest := rfl

theorem runStates_fatal (failAfter : Option Nat) (s : LoopState) (code : Nat)
    (rest : List ReadEvent) :
    runStates failAfter s (ReadEvent.fatal code :: rest) = [s] := rfl

theorem runStates_chunk_nil (failAfter : Option Nat) (s : LoopState) (rest : List ReadEvent) :
    runStates failAfter s (ReadEvent.chunk [] :: rest) = [s] := rfl

theorem runStates_chunk_fail (s : LoopState) (a : Nat) (as : List Nat) (rest : List ReadEvent) :
    runStates (some s.writeCalls) s (ReadEvent.chunk (a :: as) :: rest) = [s] := by
  rw [runStates]
  simp [stepEvent]

theorem runStates_chunk_cont (failAfter : Option Nat) (s : LoopState) (a : Nat) (as : List Nat)
    (rest : List ReadEvent) (hfa : ¬ failAfter = some s.writeCalls) :
    runStates failAfter s (ReadEvent.chunk (a :: as) :: rest) =
      s :: runStates failAfter (advanceState s (a :: as)) rest := by
  rw [runStates]
  simp [stepEvent, hfa]

theorem runStates_head? (failAfter : Option Nat) (events : List ReadEvent) (s : LoopState) :
    (runStates failAfter s events).head? = some s := by
  cases events with
  | nil => rfl
  | cons ev rest =>
    rw [runStates]
    cases h : stepEvent failAfter s ev <;> simp

/-- Both hash accumulators are fed exactly the byte sequence delivered to
the sink, at every loop boundary, for any reader behaviour and any writer
failure point. -/
theorem runStates_feeds (failAfter : Option Nat) :
    ∀ (events : List ReadEvent) (s : LoopState), s.sink = s.sha1fed → s.sink = s.sha256fed →
      ∀ t ∈ runStates failAfter s events, t.sink = t.sha1fed ∧ t.sink = t.sha256fed := by
  intro events
  induction events with
  | nil =>
    intro s h1 h2 t ht
    simp [runStates] at ht
    subst ht
    exact ⟨h1, h2⟩
  | cons ev rest ih =>
    intro s h1 h2 t ht
    cases ev with
    | interrupted =>
      rw [runStates_interrupted] at ht
      rcases List.mem_cons.mp ht with rfl | ht
      · exact ⟨h1, h2⟩
      · exact ih s h1 h2 t ht
    | fatal code =>
      rw [runStates_fatal] at ht
      simp at ht
      subst ht
      exact ⟨h1, h2⟩
    | chunk data =>
      cases data with
      | nil =>
        rw [runStates_chunk_nil] at ht
        simp at ht
        subst ht
        exact ⟨h1, h2⟩
      | cons a as =>
        by_cases hfa : failAfter = some s.writeCalls
        · rw [hfa, runStates_chunk_fail] at ht
          simp at ht
          subst ht
          exact ⟨h1, h2⟩
        · rw [runStates_chunk_cont failAfter s a as rest hfa] at ht
          rcases List.mem_cons.mp ht with rfl | ht
          · exact ⟨h1, h2⟩
          · exact ih (advanceState s (a :: as)) (by simp [advanceState, h1])
              (by simp [advanceState, h2]) t ht

/-- Master invariant for the loop-boundary trace: starting from a state
satisfying `LoopInv` whose future byte intake stays below 2^64, every
boundary state agrees on the three byte counts and the `written` values
are non-decreasing along the trace. -/
theorem runStates_master (failAfter : Option Nat) :
    ∀ (events : List ReadEvent) (s : LoopState), LoopInv s →
      s.sink.length + eventsLen events < u64 →
      (∀ t ∈ runStates failAfter s events,
        t.written = t.sink.length ∧ t.sink = t.sha1fed ∧ t.sink = t.sha256fed ∧
        t.written < u64) ∧
      List.Chain' (fun a b => a.written ≤ b.written) (runStates failAfter s events) := by
  intro events
  induction events with
  | nil =>
    intro s hinv hlen
    obtain ⟨h1, h2, h3⟩ := hinv
    have hslen : s.sink.length < u64 := by omega
    refine ⟨?_, List.chain'_singleton s⟩
    intro t ht
    simp [runStates] at ht
    subst ht
    exact ⟨by rw [h3, Nat.mod_eq_of_lt hslen], h1, h2,
      by rw [h3, Nat.mod_eq_of_lt hslen]; exact hslen⟩
  | cons ev rest ih =>
    intro s hinv hlen
    obtain ⟨h1, h2, h3⟩ := hinv
    have hslen : s.sink.length < u64 := by omega
    have hbase : s.written = s.sink.length ∧ s.sink = s.sha1fed ∧ s.sink = s.sha256fed ∧
        s.written < u64 :=
      ⟨by rw [h3, Nat.mod_eq_of_lt hslen], h1, h2,
       by rw [h3, Nat.mod_eq_of_lt hslen]; exact hslen⟩
    cases ev with
    | interrupted =>
      have hrec := ih s ⟨h1, h2, h3⟩ (by simpa [eventsLen] using hlen)
      rw [runStates_interrupted]
      refine ⟨?_, ?_⟩
      · intro t ht
        rcases List.mem_cons.mp ht with rfl | ht
        · exact hbase
        · exact hrec.1 t ht
      · rw [List.chain'_cons']
        refine ⟨?_, hrec.2⟩
        intro y hy
        rw [runStates_head?] at hy
        simp at hy
        subst hy
        exact le_refl _
    | fatal code =>
      rw [runStates_fatal]
      refine ⟨?_, List.chain'_singleton s⟩
      intro t ht
      simp at ht
      subst ht
      exact hbase
    | chunk data =>
      cases data with
      | nil =>
        rw [runStates_chunk_nil]
        refine ⟨?_, List.chain'_singleton s⟩
        intro t ht
        simp at ht
        subst ht
        exact hbase
      | cons a as =>
        by_cases hfa : failAfter = some s.writeCalls
        · rw [hfa, runStates_chunk_fail]
          refine ⟨?_, List.chain'_singleton s⟩
          intro t ht
          simp at ht
          subst ht
          exact hbase
        · have hlen2 : (advanceState s (a :: as)).sink.length + eventsLen rest < u64 := by
            simp only [advanceState, List.length_append, eventsLen] at hlen ⊢
            omega
          have hinv2 : LoopInv (advanceState s (a :: as)) := by
            refine ⟨by simp [advanceState, h1], by simp [advanceState, h2], ?_⟩
            simp only [advanceState, List.length_append]
            rw [h3, Nat.mod_add_mod]
          have hrec := ih (advanceState s (a :: as)) hinv2 hlen2
          rw [runStates_chunk_cont failAfter s a as rest hfa]
          refine ⟨?_, ?_⟩
          · intro t ht
            rcases List.mem_cons.mp ht with rfl | ht
            · exact hbase
            · exact hrec.1 t ht
          · rw [List.chain'_cons']
            refine ⟨?_, hrec.2⟩
            intro y hy
            rw [runStates_head?] at hy
            simp at hy
            subst hy
            have hlt : s.sink.length + (a :: as).length < u64 := by
              simp only [eventsLen] at hlen
              omega
            have h4 : (advanceState s (a :: as)).written = s.sink.length + (a :: as).length := by
              simp only [advanceState]
              rw [h3, Nat.mod_add_mod, Nat.mod_eq_of_lt hlt]
            rw [h4, hbase.1]
            omega

/-- C2: the `sha1` and `sha256` fields of the result equal the
lowercase-hex SHA-1 and SHA-256 digests of the whole concatenated input
computed in one pass, however the reader chunks the stream; and at every
loop boundary both hashers have consumed exactly the byte sequence
delivered to the sink, in order. -/
theorem claim_C2 (chunks : List (List Nat))
    (hck : ∀ c ∈ chunks, 1 ≤ c.length ∧ c.length ≤ 8192) :
    (∃ r : DownloadResult,
       download_with_progress none (chunks.map ReadEvent.chunk) = Except.ok r ∧
       r.sha1 = hexEncode (sha1Bytes chunks.flatten) ∧
       r.sha256 = hexEncode (sha256Bytes chunks.flatten)) ∧
    ∀ t ∈ runStates none initState (chunks.map ReadEvent.chunk),
      t.sha1fed = t.sink ∧ t.sha256fed = t.sink := by
  constructor
  · refine ⟨_, runLoop_chunks chunks initState
      (fun c hc => List.length_pos.mp (by have := (hck c hc).1; omega))
      (by norm_num [initState, u64]), ?_, ?_⟩ <;> simp [initState]
  · intro t ht
    have h := runStates_feeds none (chunks.map ReadEvent.chunk) initState rfl rfl t ht
    exact ⟨h.1.symm, h.2.symm⟩

/-- Witness for C2 at the spec's `"hello"` example split into two chunks. -/
theorem claim_C2_witness :
    (∀ c ∈ [[104, 101], [108, 108, 111]], 1 ≤ List.length c ∧ List.length c ≤ 8192) ∧
    (∃ r : DownloadResult,
       download_with_progress none (List.map ReadEvent.chunk [[104, 101], [108, 108, 111]]) =
         Except.ok r ∧
       r.sha1 = hexEncode (sha1Bytes (List.flatten [[104, 101], [108, 108, 111]])) ∧
       r.sha256 = hexEncode (sha256Bytes (List.flatten [[104, 101], [108, 108, 111]]))) ∧
    ∀ t ∈ runStates none initState (List.map ReadEvent.chunk [[104, 101], [108, 108, 111]]),
      t.sha1fed = t.sink ∧ t.sha256fed = t.sink :=
  ⟨by decide, (claim_C2 [[104, 101], [108, 108, 111]] (by decide)).1,
    (claim_C2 [[104, 101], [108, 108, 111]] (by decide)).2⟩

/-- C3: at every loop-iteration boundary, the `written` counter equals the
number of bytes passed to the writer, which is the byte sequence fed to
both hashers; `written` stays below 2^64 and is non-decreasing along the
transfer (stated for total intake within the `u64` range). -/
theorem claim_C3 (failAfter : Option Nat) (events : List ReadEvent)
    (hL : eventsLen events < u64) :
    (∀ t ∈ runStates failAfter initState events,
        t.written = t.sink.length ∧ t.sink = t.sha1fed ∧ t.sink = t.sha256fed ∧
        t.written < u64) ∧
    List.Chain' (· ≤ ·) ((runStates failAfter initState events).map LoopState.written) := by
  have h := runStates_master failAfter events initState ⟨rfl, rfl, by simp [initState]⟩
    (by simpa [initState] using hL)
  exact ⟨h.1, (List.chain'_map LoopState.written).mpr h.2⟩

/-- Witness for C3 at a concrete event list with an interrupted read. -/
theorem claim_C3_witness :
    eventsLen [ReadEvent.chunk [1, 2], ReadEvent.interrupted, ReadEvent.chunk [3]] < u64 ∧
    (∀ t ∈ runStates none initState
        [ReadEvent.chunk [1, 2], ReadEvent.interrupted, ReadEvent.chunk [3]],
        t.written = t.sink.length ∧ t.sink = t.sha1fed ∧ t.sink = t.sha256fed ∧
        t.written < u64) ∧
    List.Chain' (· ≤ ·) ((runStates none initState
        [ReadEvent.chunk [1, 2], ReadEvent.interrupted, ReadEvent.chunk [3]]).map
        LoopState.written) :=
  ⟨by decide, (claim_C3 none _ (by decide)).1, (claim_C3 none _ (by decide)).2⟩

theorem runLoop_interrupted (failAfter : Option Nat) (s : LoopState) (rest : List ReadEvent) :
    runLoop failAfter s (ReadEvent.interrupted :: rest) = runLoop failAfter s rest := rfl

theorem runLoop_fatal (failAfter : Option Nat) (s : LoopState) (code : Nat)
    (rest : List ReadEvent) :
    runLoop failAfter s (ReadEvent.fatal code :: rest) =
      Except.error (IoError.readErr code) := rfl

theorem runLoop_chunk_nil (failAfter : Option Nat) (s : LoopState) (rest : List ReadEvent) :
    runLoop failAfter s (ReadEvent.chunk [] :: rest) = Except.ok (finalizeResult s) := rfl

theorem runLoop_chunk_fail (s : LoopState) (a : Nat) (as : List Nat) (rest : List ReadEvent) :
    runLoop (some s.writeCalls) s (ReadEvent.chunk (a :: as) :: rest) =
      Except.error IoError.writeErr := by
  rw [runLoop]
  simp [stepEvent]

theorem runLoop_chunk_cont (failAfter : Option Nat) (s : LoopState) (a : Nat) (as : List Nat)
    (rest : List ReadEvent) (hfa : ¬ failAfter = some s.writeCalls) :
    runLoop failAfter s (ReadEvent.chunk (a :: as) :: rest) =
      runLoop failAfter (advanceState s (a :: as)) rest := by
  rw [runLoop]
  simp [stepEvent, hfa]

/-- C4: an interrupted read is silently retried: the iteration leaves the
whole loop state (sink, hashers, counters) untouched, and the final result
of the transfer is identical to the result over the event stream with all
interrupted reads removed. -/
theorem claim_C4 :
    (∀ (failAfter : Option Nat) (s : LoopState),
       stepEvent failAfter s ReadEvent.interrupted = StepResult.cont s) ∧
    ∀ (failAfter : Option Nat) (events : List ReadEvent),
      download_with_progress failAfter events =
        download_with_progress failAfter (events.filter (fun e => !e.isInterrupted)) := by
  refine ⟨fun _ _ => rfl, fun fa events => ?_⟩
  show runLoop fa initState events = runLoop fa initState _
  generalize initState = s
  induction events generalizing s with
  | nil => rfl
  | cons ev rest ih =>
    cases ev with
    | interrupted =>
      have hfilter : (ReadEvent.interrupted :: rest).filter (fun e => !e.isInterrupted) =
          rest.filter (fun e => !e.isInterrupted) := by
        simp [List.filter_cons, ReadEvent.isInterrupted]
      rw [runLoop_interrupted, hfilter]
      exact ih s
    | fatal code =>
      have hfilter : (ReadEvent.fatal code :: rest).filter (fun e => !e.isInterrupted) =
          ReadEvent.fatal code :: rest.filter (fun e => !e.isInterrupted) := by
        simp [List.filter_cons, ReadEvent.isInterrupted]
      rw [hfilter, runLoop_fatal, runLoop_fatal]
    | chunk data =>
      have hfilter : (ReadEvent.chunk data :: rest).filter (fun e => !e.isInterrupted) =
          ReadEvent.chunk data :: rest.filter (fun e => !e.isInterrupted) := by
        simp [List.filter_cons, ReadEvent.isInterrupted]
      rw [hfilter]
      cases data with
      | nil => rw [runLoop_chunk_nil, runLoop_chunk_nil]
      | cons a as =>
        by_cases hfa : fa = some s.writeCalls
        · rw [hfa, runLoop_chunk_fail, runLoop_chunk_fail]
        · rw [runLoop_chunk_cont fa s a as rest hfa,
            runLoop_chunk_cont fa s a as _ hfa]
          exact ih _

/-- C6: a non-interrupted read failure is returned immediately (no retry,
whatever events follow), a write failure is returned immediately, and any
`Err` from the loop, as well as a flush failure, makes `main` exit with
code 2 without a partial result. -/
theorem claim_C6 :
    (∀ (failAfter : Option Nat) (s : LoopState) (code : Nat),
       stepEvent failAfter s (ReadEvent.fatal code) =
         StepResult.failed (IoError.readErr code) s) ∧
    (∀ (failAfter : Option Nat) (s : LoopState) (code : Nat) (post : List ReadEvent),
       runLoop failAfter s (ReadEvent.fatal code :: post) =
         Except.error (IoError.readErr code)) ∧
    (∀ (s : LoopState) (data : List Nat), data ≠ [] →
       stepEvent (some s.writeCalls) s (ReadEvent.chunk data) =
         StepResult.failed IoError.writeErr { s with writeCalls := s.writeCalls + 1 }) ∧
    (∀ (ua : List Nat) (out : String) (failAfter : Option Nat) (events : List ReadEvent)
       (e : IoError) (flushOk stdoutCopyOk : Bool),
       validHeaderValue ua = true →
       download_with_progress failAfter events = Except.error e →
       runMain true ua true (some out) true failAfter events flushOk stdoutCopyOk =
         ⟨Termination.exited EXIT_OUTPUT_FAILURE, true⟩) ∧
    (∀ (ua : List Nat) (out : String) (failAfter : Option Nat) (events : List ReadEvent)
       (r : DownloadResult) (stdoutCopyOk : Bool),
       validHeaderValue ua = true →
       download_with_progress failAfter events = Except.ok r →
       runMain true ua true (some out) true failAfter events false stdoutCopyOk =
         ⟨Termination.exited EXIT_OUTPUT_FAILURE, true⟩) := by
  refine ⟨fun _ _ _ => rfl, fun _ _ _ _ => rfl, ?_, ?_, ?_⟩
  · intro s data hd
    obtain ⟨a, as, rfl⟩ := List.exists_cons_of_ne_nil hd
    simp [stepEvent]
  · intro ua out fa events e flushOk sOk hua herr
    simp [runMain, http_download, hua, herr]
  · intro ua out fa events r sOk hua hok
    simp [runMain, http_download, hua, hok]

set_option maxRecDepth 400000 in
/-- Witness for C6: a fatal read error and a failing flush, each at a
concrete input, both exit with code 2. -/
theorem claim_C6_witness :
    validHeaderValue [97] = true ∧
    download_with_progress none [ReadEvent.fatal 7] = Except.error (IoError.readErr 7) ∧
    download_with_progress none [] =
      Except.ok ⟨0, "da39a3ee5e6b4b0d3255bfef95601890afd80709",
        "e3b0c44298fc1c149afbf4c8996fb92427ae41e4649b934ca495991b7852b855"⟩ ∧
    runMain true [97] true (some "out") true none [ReadEvent.fatal 7] true true =
      ⟨Termination.exited EXIT_OUTPUT_FAILURE, true⟩ ∧
    runMain true [97] true (some "out") true none [] false true =
      ⟨Termination.exited EXIT_OUTPUT_FAILURE, true⟩ :=
  ⟨by decide, by decide, by decide,
   claim_C6.2.2.2.1 [97] "out" none [ReadEvent.fatal 7] (IoError.readErr 7) true true
     (by decide) (by decide),
   claim_C6.2.2.2.2 [97] "out" none []
     ⟨0, "da39a3ee5e6b4b0d3255bfef95601890afd80709",
      "e3b0c44298fc1c149afbf4c8996fb92427ae41e4649b934ca495991b7852b855"⟩ true
     (by decide) (by decide)⟩

/-- C7: a Request Dispatcher failure (send failure or client-build failure)
makes the process exit with code 1 with no `File::create` attempted, and a
`File::create` attempt implies the dispatcher had succeeded. -/
theorem claim_C7 :
    (∀ (ua : List Nat) (outputPath : Option String) (createOk : Bool)
       (failAfter : Option Nat) (events : List ReadEvent) (flushOk stdoutCopyOk : Bool),
       validHeaderValue ua = true →
       runMain true ua false outputPath createOk failAfter events flushOk stdoutCopyOk =
         ⟨Termination.exited EXIT_URL_FAILURE, false⟩) ∧
    (∀ (ua : List Nat) (sendOk : Bool) (outputPath : Option String) (createOk : Bool)
       (failAfter : Option Nat) (events : List ReadEvent) (flushOk stdoutCopyOk : Bool),
       runMain false ua sendOk outputPath createOk failAfter events flushOk stdoutCopyOk =
         ⟨Termination.exited EXIT_URL_FAILURE, false⟩) ∧
    (∀ (clientBuildOk : Bool) (ua : List Nat) (sendOk : Bool) (outputPath : Option String)
       (createOk : Bool) (failAfter : Option Nat) (events : List ReadEvent)
       (flushOk stdoutCopyOk : Bool),
       (runMain clientBuildOk ua sendOk outputPath createOk failAfter events flushOk
          stdoutCopyOk).fileCreateAttempted = true →
       http_download clientBuildOk ua sendOk = HttpOutcome.ok) := by
  refine ⟨?_, ?_, ?_⟩
  · intro ua outputPath createOk fa events flushOk sOk hua
    simp [runMain, http_download, hua]
  · intro ua sendOk outputPath createOk fa events flushOk sOk
    simp [runMain, http_download]
  · intro cb ua sendOk outputPath createOk fa events flushOk sOk h
    cases hd : http_download cb ua sendOk with
    | panicked => simp [runMain, hd] at h
    | setupErr => simp [runMain, hd] at h
    | ok => rfl

/-- Witness for C7 at concrete inputs: a failing send exits 1 with no file
creation, and a run that did attempt file creation had a successful
dispatch. -/
theorem claim_C7_witness :
    validHeaderValue [97] = true ∧
    runMain true [97] false (some "out") true none [] true true =
      ⟨Termination.exited EXIT_URL_FAILURE, false⟩ ∧
    (runMain true [97] true (some "out") true none [] true true).fileCreateAttempted = true ∧
    http_download true [97] true = HttpOutcome.ok :=
  ⟨by decide, claim_C7.1 [97] (some "out") true none [] true true (by decide),
   by decide, claim_C7.2.2 true [97] true (some "out") true none [] true true (by decide)⟩

/-- C8 counterexample: with the illegal user-agent byte 10 (a newline),
the process panics at the `.unwrap()` on `HeaderValue::from_str`
(src/main.rs line 62); it does not exit with code 1 as the claim states. -/
theorem claim_C8_counterexample :
    runMain true [10] true (some "out") true none [] true true =
      ⟨Termination.panicked, false⟩ ∧
    (runMain true [10] true (some "out") true none [] true true).term ≠
      Termination.exited EXIT_URL_FAILURE :=
  ⟨rfl, by decide⟩

/-- C8 (amended): a user-agent containing a byte illegal in an HTTP header
value makes `http_download` panic at the `.unwrap()` call, so the process
aborts with a panic (before any sink creation) instead of reaching the
exit-code-1 setup-failure path. -/
theorem claim_C8_amended (ua : List Nat) (h : validHeaderValue ua = false) (sendOk : Bool)
    (outputPath : Option String) (createOk : Bool) (failAfter : Option Nat)
    (events : List ReadEvent) (flushOk stdoutCopyOk : Bool) :
    http_download true ua sendOk = HttpOutcome.panicked ∧
    runMain true ua sendOk outputPath createOk failAfter events flushOk stdoutCopyOk =
      ⟨Termination.panicked, false⟩ := by
  have h1 : http_download true ua sendOk = HttpOutcome.panicked := by
    simp [http_download, h]
  exact ⟨h1, by simp [runMain, h1]⟩

/-- Witness for the amended C8 at the concrete illegal user-agent `[10]`. -/
theorem claim_C8_witness :
    validHeaderValue [10] = false ∧
    http_download true [10] true = HttpOutcome.panicked ∧
    runMain true [10] true (some "out") true none [] true true =
      ⟨Termination.panicked, false⟩ :=
  ⟨by decide, (claim_C8_amended [10] (by decide) true (some "out") true none [] true true).1,
   (claim_C8_amended [10] (by decide) true (some "out") true none [] true true).2⟩

/-! ### Destination-name selection -/

theorem takeWhile_all {α : Type} (p : α → Bool) :
    ∀ xs : List α, (∀ x ∈ xs, p x = true) → xs.takeWhile p = xs := by
  intro xs
  induction xs with
  | nil => intro _; rfl
  | cons x xs ih =>
    intro h
    rw [List.takeWhile_cons, h x (List.mem_cons_self x xs)]
    simp [ih (fun y hy => h y (List.mem_cons_of_mem x hy))]

theorem takeWhile_append_stop {α : Type} (p : α → Bool) (y : α) (hy : p y = false) :
    ∀ (xs ys : List α), (xs ++ y :: ys).takeWhile p = xs.takeWhile p := by
  intro xs
  induction xs with
  | nil => intro ys; simp [List.takeWhile_cons, hy]
  | cons x xs ih =>
    intro ys
    rw [List.cons_append, List.takeWhile_cons, List.takeWhile_cons]
    cases hx : p x <;> simp [ih]

theorem takeWhile_append_mem_fail {α : Type} (p : α → Bool) :
    ∀ (xs ys : List α), (∃ x ∈ xs, p x = false) →
      (xs ++ ys).takeWhile p = xs.takeWhile p := by
  intro xs
  induction xs with
  | nil =>
    intro ys h
    simp at h
  | cons x xs ih =>
    intro ys h
    rw [List.cons_append, List.takeWhile_cons, List.takeWhile_cons]
    cases hx : p x
    · rfl
    · obtain ⟨z, hz, hzp⟩ := h
      rcases List.mem_cons.mp hz with rfl | hz
      · rw [hx] at hzp
        cases hzp
      · simp [ih ys ⟨z, hz, hzp⟩]

theorem splitChar_ne_nil (sep : Char) (cs : List Char) : splitChar sep cs ≠ [] := by
  induction cs with
  | nil => simp [splitChar]
  | cons c cs ih =>
    rw [splitChar]
    cases h : splitChar sep cs with
    | nil => simp
    | cons seg rest =>
      dsimp only
      split <;> simp

/-- Splitting a string in which the separator does not occur yields the
whole string as the single segment. -/
theorem splitChar_not_mem (sep : Char) :
    ∀ cs : List Char, sep ∉ cs → splitChar sep cs = [cs] := by
  intro cs
  induction cs with
  | nil => intro _; rfl
  | cons c cs ih =>
    intro h
    rw [splitChar, ih (fun hm => h (List.mem_cons_of_mem c hm))]
    dsimp only
    rw [if_neg (fun hce => h (List.mem_cons.mpr (Or.inl hce.symm)))]

/-- A single-segment split means the separator does not occur and the
segment is the whole string. -/
theorem splitChar_eq_singleton (sep : Char) :
    ∀ (cs x : List Char), splitChar sep cs = [x] → sep ∉ cs ∧ x = cs := by
  intro cs
  induction cs with
  | nil =>
    intro x h
    simp [splitChar] at h
    exact ⟨by simp, by simp_all⟩
  | cons c cs ih =>
    intro x h
    rw [splitChar] at h
    cases hs : splitChar sep cs with
    | nil => exact absurd hs (splitChar_ne_nil sep cs)
    | cons seg rest =>
      rw [hs] at h
      dsimp only at h
      by_cases hc : c = sep
      · rw [if_pos hc] at h
        simp at h
      · rw [if_neg hc] at h
        simp only [List.cons.injEq] at h
        obtain ⟨hx, hrest⟩ := h
        subst hrest
        obtain ⟨hsep, hseg⟩ := ih seg hs
        refine ⟨?_, ?_⟩
        · intro hm
          rcases List.mem_cons.mp hm with he | hm
          · exact hc he.symm
          · exact hsep hm
        · rw [← hx, hseg]

/-- The last segment of the split is the text after the last separator. -/
theorem splitChar_getLast? (sep : Char) :
    ∀ cs : List Char, (splitChar sep cs).getLast? =
      some ((cs.reverse.takeWhile (fun c => c != sep)).reverse) := by
  intro cs
  induction cs with
  | nil => rfl
  | cons c cs ih =>
    rw [splitChar]
    cases hs : splitChar sep cs with
    | nil => exact absurd hs (splitChar_ne_nil sep cs)
    | cons seg rest =>
      rw [hs] at ih
      dsimp only
      by_cases hc : c = sep
      · rw [if_pos hc]
        rw [List.getLast?_cons_cons, ih]
        subst hc
        rw [List.reverse_cons, takeWhile_append_stop _ c (by simp) cs.reverse []]
      · rw [if_neg hc]
        cases rest with
        | nil =>
          obtain ⟨hsep, hseg⟩ := splitChar_eq_singleton sep cs seg hs
          rw [List.getLast?_singleton, hseg, List.reverse_cons]
          have hall : ∀ x ∈ cs.reverse ++ [c], (x != sep) = true := by
            intro x hx
            rcases List.mem_append.mp hx with hx | hx
            · have hmem : x ∈ cs := List.mem_reverse.mp hx
              simp only [bne_iff_ne]
              exact fun he => hsep (he ▸ hmem)
            · simp at hx
              subst hx
              simp only [bne_iff_ne]
              exact hc
          rw [takeWhile_all _ _ hall]
          simp
        | cons r rs =>
          have hsepmem : sep ∈ cs := by
            by_contra hnm
            rw [splitChar_not_mem sep cs hnm] at hs
            simp at hs
          rw [List.getLast?_cons_cons] at ih ⊢
          rw [ih, List.reverse_cons,
            takeWhile_append_mem_fail _ cs.reverse [c]
              ⟨sep, List.mem_reverse.mpr hsepmem, by simp⟩]

/-- The embedded `get_filename` always yields the text after the last
slash, as the spec words it. -/
theorem get_filename_eq (url : String) :
    get_filename url = some (textAfterLastSlash url) := by
  unfold get_filename rsplitSegments textAfterLastSlash
  rw [List.head?_reverse, splitChar_getLast?]
  rfl

/-- C9: when both `--output` and `--remote-name` are given, remote-name
wins: the chosen destination is the text after the last `'/'` of the URL
path, the `--output` value is ignored, and `--output` is consulted exactly
when `--remote-name` is absent. -/
theorem claim_C9 (out uriPath : String) :
    output_path true (some out) uriPath = some (textAfterLastSlash uriPath) ∧
    output_path true (some out) uriPath = output_path true none uriPath ∧
    output_path false (some out) uriPath = some out ∧
    output_path false none uriPath = none := by
  refine ⟨?_, rfl, rfl, rfl⟩
  simpa [output_path] using get_filename_eq uriPath

/-- C10: `get_filename` never returns `none`; a trailing-slash path yields
the empty file name, a slash-free string is returned whole, and with
`--remote-name` the chosen destination is always a file (never the
standard-output fallback). -/
theorem claim_C10 :
    (∀ url : String, (get_filename url).isSome = true) ∧
    (∀ s : String, get_filename (s ++ "/") = some "") ∧
    (∀ s : String, (∀ c ∈ s.data, c ≠ '/') → get_filename s = some s) ∧
    (∀ (o : Option String) (p : String), (output_path true o p).isSome = true) := by
  refine ⟨?_, ?_, ?_, ?_⟩
  · intro url
    rw [get_filename_eq]
    rfl
  · intro s
    rw [get_filename_eq]
    have hd : (s ++ "/").data = s.data ++ ['/'] := by
      rw [String.data_append]
    unfold textAfterLastSlash
    rw [hd, List.reverse_append]
    simp [List.takeWhile_cons]
  · intro s h
    have hall : ∀ x ∈ s.data.reverse, (x != '/') = true := by
      intro x hx
      simp only [bne_iff_ne]
      exact h x (List.mem_reverse.mp hx)
    rw [get_filename_eq]
    unfold textAfterLastSlash
    rw [takeWhile_all _ _ hall, List.reverse_reverse]
  · intro o p
    simp [output_path, get_filename_eq]

/-- Witness for C10 at the slash-free string `"ab"`. -/
theorem claim_C10_witness :
    (∀ c ∈ ("ab" : String).data, c ≠ '/') ∧ get_filename "ab" = some "ab" :=
  ⟨by decide, claim_C10.2.2.1 "ab" (by decide)⟩

end Download
